import Mathlib

set_option linter.unusedVariables false

/-!
Verification of the `redux-api-resources` resource reducer (`src/reducer.ts`).

JavaScript runtime values are modelled by the inductive type `JVal`
(numbers as integers, objects as association lists with string keys,
property keys obtained by JavaScript string coercion).  Exceptions thrown
by the reducer are modelled by `Except String`; `console.warn` emissions
are collected in a list of strings alongside the returned state.
-/

namespace RAR

/-- A JavaScript runtime value: `null`, `undefined`, booleans, numbers
(modelled as integers), strings, arrays, and plain objects (ordered
association lists from string keys to values). -/
inductive JVal where
  | null : JVal
  | undefined : JVal
  | bool : Bool → JVal
  | num : Int → JVal
  | str : String → JVal
  | arr : List JVal → JVal
  | obj : List (String × JVal) → JVal

mutual

/-- Structural (JavaScript strict) equality on modelled values. -/
def jeq : JVal → JVal → Bool
  | .null, .null => true
  | .undefined, .undefined => true
  | .bool x, .bool y => x == y
  | .num x, .num y => x == y
  | .str x, .str y => x == y
  | .arr xs, .arr ys => jeqList xs ys
  | .obj fs, .obj gs => jeqFields fs gs
  | _, _ => false

def jeqList : List JVal → List JVal → Bool
  | [], [] => true
  | x :: xs, y :: ys => jeq x y && jeqList xs ys
  | _, _ => false

def jeqFields : List (String × JVal) → List (String × JVal) → Bool
  | [], [] => true
  | (k, v) :: fs, (l, w) :: gs => k == l && jeq v w && jeqFields fs gs
  | _, _ => false

end

mutual

theorem jeq_iff : ∀ (a b : JVal), jeq a b = true ↔ a = b
  | .arr xs, .arr ys => by simp [jeq, jeqList_iff xs ys]
  | .obj fs, .obj gs => by simp [jeq, jeqFields_iff fs gs]
  | .null, b => by cases b <;> simp [jeq]
  | .undefined, b => by cases b <;> simp [jeq]
  | .bool x, b => by cases b <;> simp [jeq]
  | .num x, b => by cases b <;> simp [jeq]
  | .str x, b => by cases b <;> simp [jeq]
  | .arr xs, .null => by simp [jeq]
  | .arr xs, .undefined => by simp [jeq]
  | .arr xs, .bool y => by simp [jeq]
  | .arr xs, .num y => by simp [jeq]
  | .arr xs, .str y => by simp [jeq]
  | .arr xs, .obj gs => by simp [jeq]
  | .obj fs, .null => by simp [jeq]
  | .obj fs, .undefined => by simp [jeq]
  | .obj fs, .bool y => by simp [jeq]
  | .obj fs, .num y => by simp [jeq]
  | .obj fs, .str y => by simp [jeq]
  | .obj fs, .arr ys => by simp [jeq]

theorem jeqList_iff : ∀ (xs ys : List JVal), jeqList xs ys = true ↔ xs = ys
  | [], [] => by simp [jeqList]
  | [], _ :: _ => by simp [jeqList]
  | _ :: _, [] => by simp [jeqList]
  | x :: xs, y :: ys => by
    simp [jeqList, jeq_iff x y, jeqList_iff xs ys]

theorem jeqFields_iff : ∀ (fs gs : List (String × JVal)), jeqFields fs gs = true ↔ fs = gs
  | [], [] => by simp [jeqFields]
  | [], _ :: _ => by simp [jeqFields]
  | _ :: _, [] => by simp [jeqFields]
  | (k, v) :: fs, (l, w) :: gs => by
    simp [jeqFields, jeq_iff v w, jeqFields_iff fs gs, and_assoc]

end

instance : DecidableEq JVal := fun a b => decidable_of_iff _ (jeq_iff a b)

/-- JavaScript truthiness: `null`, `undefined`, `false`, `0` and `""` are
falsy; every other value (including any array or object) is truthy. -/
def truthy : JVal → Bool
  | .null => false
  | .undefined => false
  | .bool b => b
  | .num n => n != 0
  | .str s => s != ""
  | .arr _ => true
  | .obj _ => true

mutual

/-- JavaScript `String(v)`: the string coercion used when a value is used
as an object property key (`entities[id]`, `changeset[form]`, ...). -/
def toKey : JVal → String
  | .null => "null"
  | .undefined => "undefined"
  | .bool b => if b then "true" else "false"
  | .num n => toString n
  | .str s => s
  | .arr xs => keyList xs
  | .obj _ => "[object Object]"

/-- `Array.prototype.toString`: elements joined with commas, with `null`
and `undefined` elements rendered as the empty string. -/
def keyList : List JVal → String
  | [] => ""
  | [JVal.null] => ""
  | [JVal.undefined] => ""
  | [v] => toKey v
  | JVal.null :: vs => "," ++ keyList vs
  | JVal.undefined :: vs => "," ++ keyList vs
  | v :: vs => toKey v ++ "," ++ keyList vs

end

/-- First-match lookup in an association list (JavaScript object property read). -/
def lookupAssoc (l : List (String × JVal)) (k : String) : Option JVal :=
  match l with
  | [] => none
  | (k', v) :: rest => if k' = k then some v else lookupAssoc rest k

/-- JavaScript property assignment `o[k] = v`: overwrite in place if the key
exists (keeping its position), otherwise append the new key at the end. -/
def setAssoc (l : List (String × JVal)) (k : String) (v : JVal) : List (String × JVal) :=
  match l with
  | [] => [(k, v)]
  | (k', v') :: rest => if k' = k then (k, v) :: rest else (k', v') :: setAssoc rest k v

/-- JavaScript `delete o[k]`: remove the key from an object. -/
def delAssoc (l : List (String × JVal)) (k : String) : List (String × JVal) :=
  l.filter (fun p => p.1 ≠ k)

/-- The own enumerable fields contributed by spreading a value into an
object literal (`\x7b...v\x7d`): objects contribute their fields, arrays and
strings contribute their indexed elements, primitives contribute nothing. -/
def spreadFields : JVal → List (String × JVal)
  | .obj fs => fs
  | .arr xs => (List.range xs.length).zip xs |>.map (fun p => (toString p.1, p.2))
  | .str s => (List.range s.toList.length).zip s.toList |>.map
      (fun p => (toString p.1, JVal.str (String.mk [p.2])))
  | _ => []

/-- JavaScript object spread merge `\x7b...a, ...b\x7d`: keys of `a` keep their
positions (values overridden by `b` where present), new keys of `b` are
appended in order. -/
def mergeAssoc (a b : List (String × JVal)) : List (String × JVal) :=
  (a.map (fun p => (p.1, (lookupAssoc b p.1).getD p.2)))
    ++ b.filter (fun p => (lookupAssoc a p.1).isNone)

/-- JavaScript property read `v[k]` on a non-null, non-undefined base:
objects look up the field, arrays and strings support `length` and index
reads, other primitives (boxed) have no own fields. -/
def getFieldD : JVal → String → JVal
  | .obj fs, k => (lookupAssoc fs k).getD .undefined
  | .arr xs, k =>
    if k = "length" then .num (xs.length : Int)
    else
      match k.toNat? with
      | some i => if toString i = k then (xs.getD i .undefined) else .undefined
      | none => .undefined
  | .str s, k =>
    if k = "length" then .num (s.toList.length : Int)
    else
      match k.toNat? with
      | some i =>
        if toString i = k then
          match s.toList.get? i with
          | some c => .str (String.mk [c])
          | none => .undefined
        else .undefined
      | none => .undefined
  | _, _ => .undefined

/-- `Array.isArray(payload) ? payload : [payload]`. -/
def toArray : JVal → List JVal
  | .arr xs => xs
  | v => [v]

/-- JavaScript `delete base[k]` on a non-null, non-undefined base: removes
the field from an object, blanks a (canonical) index of an array, and is a
no-op on primitives. -/
def jsDelete (base : JVal) (k : String) : JVal :=
  match base with
  | .obj fs => .obj (delAssoc fs k)
  | .arr xs =>
    match k.toNat? with
    | some i => if toString i = k then .arr (xs.set i .undefined) else .arr xs
    | none => .arr xs
  | v => v

/-- `String.prototype.split` with a single-character separator, keeping
empty segments (so the result is never empty). -/
def splitCharAux (c : Char) : List Char → List Char → List String
  | [], cur => [String.mk cur.reverse]
  | ch :: rest, cur =>
    if ch = c then String.mk cur.reverse :: splitCharAux c rest []
    else splitCharAux c rest (ch :: cur)

/-- JavaScript `s.split(c)` for a one-character separator. -/
def jsSplit (c : Char) (s : String) : List String := splitCharAux c s.data []

/-- JavaScript `s.toUpperCase()` (ASCII). -/
def jsToUpper (s : String) : String := String.mk (s.data.map Char.toUpper)

/-- JavaScript `s.toLowerCase()` (ASCII). -/
def jsToLower (s : String) : String := String.mk (s.data.map Char.toLower)

/-- A dispatched action: `type` string, optional `payload` and `meta`
(absence modelled as `undefined`). -/
structure Action where
  type : String
  payload : JVal := .undefined
  meta : JVal := .undefined
  deriving DecidableEq

/-- The normalized resource slice (`Resource<T>` of the source): ordered
identifier list, identifier-keyed entity map, response metadata, per-form
changeset buffers, and per-operation statuses (each status a plain object). -/
structure Resource where
  results : List JVal
  entities : List (String × JVal)
  meta : List (String × JVal)
  changeset : List (String × JVal)
  status : List (String × JVal)
  deriving DecidableEq

/-- Reducer configuration (`ResourceReducerOptions`), with every option
supplied (the factory fills unsupplied options with the defaults). -/
structure Options where
  idAttribute : String
  onUpdate : JVal → JVal → JVal
  changesetReducer : JVal → JVal → JVal
  entityReducer : String → JVal → JVal → JVal
  errorReducer : String → JVal → JVal → JVal

/-- The default options installed by the factory. -/
def defaultOptions : Options where
  idAttribute := "id"
  onUpdate := fun prev next => next
  changesetReducer := fun changeset changes =>
    .obj (mergeAssoc (spreadFields changeset) (spreadFields changes))
  entityReducer := fun action_type payload meta => payload
  errorReducer := fun action_type payload meta => payload

/-- `defaultStatus()`. -/
def defaultStatus : JVal :=
  .obj [("pending", .null), ("id", .null), ("success", .null), ("payload", .null), ("busy", .bool false)]

/-- `createStatus()`: default statuses for the four known operations. -/
def createStatus : List (String × JVal) :=
  [("fetch", defaultStatus), ("create", defaultStatus), ("update", defaultStatus), ("destroy", defaultStatus)]

/-- `initialResourceState()`. -/
def initialResourceState : Resource where
  results := []
  entities := []
  meta := []
  changeset := []
  status := createStatus

/-- The reducer's outcome: either a thrown `TypeError` (message) or the new
state together with the `console.warn` messages emitted while producing it. -/
abbrev RRes := Except String (Resource × List String)

instance exceptDecEq {ε α : Type} [DecidableEq ε] [DecidableEq α] : DecidableEq (Except ε α) :=
  fun a b =>
    match a, b with
    | .ok x, .ok y => if h : x = y then .isTrue (by rw [h]) else .isFalse (by simp [h])
    | .error x, .error y => if h : x = y then .isTrue (by rw [h]) else .isFalse (by simp [h])
    | .ok _, .error _ => .isFalse (by simp)
    | .error _, .ok _ => .isFalse (by simp)

/-- The `console.warn` message of `updateInResource` for a missing identifier. -/
def warnMsg (idAttribute : String) : String :=
  "Missing \x27" ++ idAttribute ++ "\x27 unable to add data to store"

/-- The element loop of `updateInResource`: for each payload element read
its identifier; a falsy identifier warns and skips; otherwise the
identifier is appended to `results` unless already present and the entity
map entry is replaced by `onUpdate(previous, element)`.  A `null` or
`undefined` element faults (property read on a non-coercible base). -/
def updateElems (o : Options) : List JVal → List JVal → List (String × JVal) → List String →
    Except String (List JVal × List (String × JVal) × List String)
  | [], results, entities, w => .ok (results, entities, w)
  | e :: rest, results, entities, w =>
    if e = .null ∨ e = .undefined then .error "TypeError: cannot read properties of null or undefined"
    else
      let id := getFieldD e o.idAttribute
      if truthy id then
        updateElems o rest
          (if id ∈ results then results else results ++ [id])
          (setAssoc entities (toKey id)
            (o.onUpdate ((lookupAssoc entities (toKey id)).getD .undefined) e))
          w
      else
        updateElems o rest results entities (w ++ [warnMsg o.idAttribute])

/-- `updateInResource`. -/
def updateInResource (payload : JVal) (s : Resource) (o : Options) : RRes :=
  (updateElems o (toArray payload) s.results s.entities []).map
    (fun t => ({ s with results := t.1, entities := t.2.1 }, t.2.2))

/-- The identifier extracted from a destroy payload element: primitives
(numbers and strings) are the identifier themselves, any other value is
read through the configured identifier field. -/
def destroyId (o : Options) : JVal → JVal
  | .num n => .num n
  | .str s => .str s
  | e => getFieldD e o.idAttribute

/-- The element loop of `destroyInResource`: remove the first occurrence
of the identifier from `results` (a silent no-op when absent) and delete
its key from `entities`.  A `null` or `undefined` element faults. -/
def destroyElems (o : Options) : List JVal → List JVal → List (String × JVal) →
    Except String (List JVal × List (String × JVal))
  | [], results, entities => .ok (results, entities)
  | e :: rest, results, entities =>
    if e = .null ∨ e = .undefined then .error "TypeError: cannot read properties of null or undefined"
    else
      let id := destroyId o e
      destroyElems o rest (results.erase id) (delAssoc entities (toKey id))

/-- `destroyInResource`. -/
def destroyInResource (payload : JVal) (s : Resource) (o : Options) : RRes :=
  (destroyElems o (toArray payload) s.results s.entities).map
    (fun t => ({ s with results := t.1, entities := t.2 }, []))

/-- `handleStart`. -/
def handleStart (crudType : String) (a : Action) (s : Resource) (o : Options) : Resource :=
  let st : JVal := .obj
    [("pending", .bool true), ("busy", .bool true), ("success", .null), ("payload", a.payload)]
  { s with status := setAssoc s.status (jsToLower crudType) st }

/-- `handleClear`. -/
def handleClear (crudType : String) (a : Action) (s : Resource) (o : Options) : Resource :=
  { s with status := setAssoc s.status (jsToLower crudType) defaultStatus }

/-- The status object stored by `handleFailure`: pending stays `true`,
busy clears, success is `false`, and the payload is the transformed error
payload when truthy, `null` otherwise. -/
def failureStatus (o : Options) (crudType : String) (a : Action) : JVal :=
  .obj [("pending", .bool true), ("busy", .bool false), ("success", .bool false),
        ("payload", if truthy a.payload then o.errorReducer crudType a.payload a.meta else .null)]

/-- `handleFailure`. -/
def handleFailure (crudType : String) (a : Action) (s : Resource) (o : Options) : Resource :=
  { s with status := setAssoc s.status (jsToLower crudType) (failureStatus o crudType a) }

/-- The intermediate state built by `handleSuccess` before the entity
merge: fresh copies of `results`/`entities`, the success status for the
operation, and the replaced or merged `meta`. -/
def successState (crudType : String) (a : Action) (s : Resource) : Resource :=
  let st : JVal := .obj
    [("pending", .bool false), ("busy", .bool false), ("success", .bool true),
     ("payload", a.payload)]
  let newMeta : List (String × JVal) :=
    if a.meta = JVal.null ∨ a.meta = JVal.bool false then []
    else mergeAssoc s.meta (spreadFields a.meta)
  { results := s.results
    entities := s.entities
    status := setAssoc s.status (jsToLower crudType) st
    meta := newMeta
    changeset := s.changeset }

/-- `handleSuccess`: a falsy payload returns the state unchanged; otherwise
the operation status becomes the success status, `meta` is replaced or
merged, and the payload (through `entityReducer`) is routed to the destroy
or update algorithm. -/
def handleSuccess (crudType : String) (a : Action) (s : Resource) (o : Options) : RRes :=
  if truthy a.payload = false then .ok (s, [])
  else
    let data := o.entityReducer crudType a.payload a.meta
    if crudType = "DESTROY" then destroyInResource data (successState crudType a s) o
    else updateInResource data (successState crudType a s) o

/-- `handleResource`: dispatch on the METHOD segment; unknown methods
return the state unchanged. -/
def handleResource : Option String → Option String → Action → Resource → Options → RRes
  | some d, some m, a, s, o =>
    if m = "START" then .ok (handleStart d a s o, [])
    else if m = "SUCCESS" then handleSuccess d a s o
    else if m = "FAILURE" then .ok (handleFailure d a s o, [])
    else if m = "RESET" then .ok (handleClear d a s o, [])
    else .ok (s, [])
  | none, some m, a, s, o =>
    if m = "START" ∨ m = "SUCCESS" ∨ m = "FAILURE" ∨ m = "RESET" then
      .error "TypeError: cannot read toLowerCase of undefined"
    else .ok (s, [])
  | _, none, a, s, o => .ok (s, [])

/-- The form key used by the changeset handlers: `meta.form`, defaulting to
`"default"` when absent, coerced to a property key. -/
def formKeyOf (meta : JVal) : String :=
  let fv := getFieldD meta "form"
  toKey (if fv = JVal.undefined then JVal.str "default" else fv)

/-- Deleting the named fields from the (looked-up) buffer of a form: a
missing buffer (or one storing `null`/`undefined`) faults; otherwise every
named field is deleted from it in order. -/
def removeFieldsNE : Option JVal → List JVal → String → Resource → RRes
  | none, _, _, _ => .error "TypeError: cannot convert undefined to object"
  | some buf, fields, fkey, s =>
    if buf = JVal.null ∨ buf = JVal.undefined then
      .error "TypeError: cannot convert buffer to object"
    else
      let buf' := fields.foldl (fun b f => jsDelete b (toKey f)) buf
      .ok ({ s with changeset := setAssoc s.changeset fkey buf' }, [])

/-- The REMOVE branch of `handleChangeset`: an empty field list never even
reads the buffer; a non-empty one deletes each named field from it. -/
def removeFields : List JVal → String → Resource → RRes
  | [], _, s => .ok (s, [])
  | f :: fs, fkey, s => removeFieldsNE (lookupAssoc s.changeset fkey) (f :: fs) fkey s

/-- The method switch of `handleChangeset`: MERGE, REMOVE and RESET update
the targeted form buffer; any other method returns the state unchanged. -/
def changesetSwitch : Option String → String → Action → Resource → Options → RRes
  | some m, fkey, a, s, o =>
    if m = "MERGE" then
      let merged := o.changesetReducer ((lookupAssoc s.changeset fkey).getD .undefined) a.payload
      .ok ({ s with changeset := setAssoc s.changeset fkey merged }, [])
    else if m = "REMOVE" then removeFields (toArray a.payload) fkey s
    else if m = "RESET" then
      .ok ({ s with changeset := setAssoc s.changeset fkey (JVal.obj []) }, [])
    else .ok (s, [])
  | none, fkey, a, s, o => .ok (s, [])

/-- `handleChangeset`: destructuring `form` from a `null` meta faults;
otherwise the method switch runs against the form's buffer key. -/
def handleChangeset (method : Option String) (a : Action) (s : Resource) (o : Options) : RRes :=
  let meta := if a.meta = JVal.undefined then JVal.obj [] else a.meta
  if meta = JVal.null then .error "TypeError: cannot destructure null meta"
  else changesetSwitch method (formKeyOf meta) a s o

/-- The reducer produced by `resourceReducer(resourceName, options)`,
applied to a state and an action. -/
def resourceReducer (resourceName : String) (o : Options) (s : Resource) (a : Action) : RRes :=
  let name := jsToUpper resourceName
  let parts := jsSplit '/' a.type
  let actionName := parts.headD ""
  let actionDomain := parts[1]?
  let actionMethod := parts[2]?
  if name = actionName then
    if actionDomain = some "RESOURCE" then .ok (initialResourceState, [])
    else if actionDomain = some "META" then .ok ({ s with meta := [] }, [])
    else if actionDomain = some "CHANGESET" then handleChangeset actionMethod a s o
    else handleResource actionDomain actionMethod a s o
  else .ok (s, [])

example :
    (resourceReducer "users" defaultOptions initialResourceState
      { type := "USERS/FETCH/SUCCESS",
        payload := .arr [.obj [("id", .num 1), ("name", .str "A")],
                         .obj [("id", .num 2), ("name", .str "B")]] }).map
      (fun p => (p.1.results, p.1.entities.map Prod.fst)) = .ok ([.num 1, .num 2], ["1", "2"]) := by
  decide

/-! ### Association-list lemmas -/

theorem lookup_setAssoc_self (l : List (String × JVal)) (k : String) (v : JVal) :
    lookupAssoc (setAssoc l k v) k = some v := by
  induction l with
  | nil => simp [setAssoc, lookupAssoc]
  | cons p rest ih =>
    obtain ⟨k', v'⟩ := p
    by_cases h : k' = k
    · simp [setAssoc, h, lookupAssoc]
    · simp [setAssoc, h, lookupAssoc, ih]

theorem lookup_setAssoc_ne (l : List (String × JVal)) (k k' : String) (v : JVal) (h : k ≠ k') :
    lookupAssoc (setAssoc l k v) k' = lookupAssoc l k' := by
  induction l with
  | nil => simp [setAssoc, lookupAssoc, h]
  | cons p rest ih =>
    obtain ⟨k₀, v₀⟩ := p
    by_cases h₀ : k₀ = k
    · subst h₀; simp [setAssoc, lookupAssoc, h]
    · simp [setAssoc, h₀, lookupAssoc, ih]

theorem map_fst_setAssoc_mem (l : List (String × JVal)) (k : String) (v : JVal)
    (h : k ∈ l.map Prod.fst) : (setAssoc l k v).map Prod.fst = l.map Prod.fst := by
  induction l with
  | nil => simp at h
  | cons p rest ih =>
    obtain ⟨k₀, v₀⟩ := p
    rw [List.map_cons, List.mem_cons] at h
    by_cases h₀ : k₀ = k
    · simp [setAssoc, h₀]
    · have h' : k ∈ rest.map Prod.fst := by
        rcases h with h1 | h1
        · exact absurd h1.symm h₀
        · exact h1
      simp [setAssoc, h₀, ih h']

theorem map_fst_setAssoc_not_mem (l : List (String × JVal)) (k : String) (v : JVal)
    (h : k ∉ l.map Prod.fst) : (setAssoc l k v).map Prod.fst = l.map Prod.fst ++ [k] := by
  induction l with
  | nil => simp [setAssoc]
  | cons p rest ih =>
    obtain ⟨k₀, v₀⟩ := p
    rw [List.map_cons, List.mem_cons] at h
    push_neg at h
    have h₀ : k₀ ≠ k := fun hh => h.1 hh.symm
    simp [setAssoc, h₀, ih h.2]

theorem lookupAssoc_eq_none_iff (l : List (String × JVal)) (k : String) :
    lookupAssoc l k = none ↔ k ∉ l.map Prod.fst := by
  induction l with
  | nil => simp [lookupAssoc]
  | cons p rest ih =>
    obtain ⟨k₀, v₀⟩ := p
    by_cases h₀ : k₀ = k
    · simp [lookupAssoc, h₀]
    · simp [lookupAssoc, h₀, ih, Ne.symm h₀]

theorem delAssoc_of_not_mem (l : List (String × JVal)) (k : String)
    (h : k ∉ l.map Prod.fst) : delAssoc l k = l := by
  induction l with
  | nil => rfl
  | cons p rest ih =>
    obtain ⟨k₀, v₀⟩ := p
    rw [List.map_cons, List.mem_cons] at h
    push_neg at h
    have h₀ : k₀ ≠ k := fun hh => h.1 hh.symm
    rw [delAssoc, List.filter_cons]
    rw [delAssoc] at ih
    simp only [h₀, decide_True, decide_False, ne_eq, ite_true, ite_false]
    simp only [ih h.2]
    simp [h₀]

theorem lookup_delAssoc (l : List (String × JVal)) (k k' : String) :
    lookupAssoc (delAssoc l k) k' = if k = k' then none else lookupAssoc l k' := by
  induction l with
  | nil => simp [delAssoc, lookupAssoc]
  | cons p rest ih =>
    obtain ⟨k₀, v₀⟩ := p
    rw [delAssoc, List.filter_cons]
    rw [delAssoc] at ih
    by_cases h₀ : k₀ = k <;> by_cases h' : k₀ = k' <;>
      simp_all [lookupAssoc] <;>
      exact fun hh => h₀ hh.symm

/-- First-defined choice between two optional values (used to state the
spread-merge lookup law). -/
def firstSome (a b : Option JVal) : Option JVal :=
  match a with
  | some v => some v
  | none => b

@[simp] theorem firstSome_some (v : JVal) (b : Option JVal) : firstSome (some v) b = some v := rfl

@[simp] theorem firstSome_none (b : Option JVal) : firstSome none b = b := rfl

theorem firstSome_none_right (a : Option JVal) : firstSome a none = a := by
  cases a <;> rfl

theorem lookup_append (l₁ l₂ : List (String × JVal)) (k : String) :
    lookupAssoc (l₁ ++ l₂) k = firstSome (lookupAssoc l₁ k) (lookupAssoc l₂ k) := by
  induction l₁ with
  | nil => simp [lookupAssoc]
  | cons p rest ih =>
    obtain ⟨k₀, v₀⟩ := p
    by_cases h₀ : k₀ = k
    · simp [lookupAssoc, h₀]
    · simp [lookupAssoc, h₀, ih]

theorem lookup_filter_agree (b : List (String × JVal)) (k : String)
    (p q : String × JVal → Bool) (h : ∀ w, p (k, w) = q (k, w)) :
    lookupAssoc (b.filter p) k = lookupAssoc (b.filter q) k := by
  induction b with
  | nil => rfl
  | cons e rest ih =>
    obtain ⟨k₀, v₀⟩ := e
    by_cases h₀ : k₀ = k
    · subst h₀
      rw [List.filter_cons, List.filter_cons, h v₀]
      cases hq : q (k₀, v₀) <;> simp [lookupAssoc, ih]
    · rw [List.filter_cons, List.filter_cons]
      cases hp : p (k₀, v₀) <;> cases hq : q (k₀, v₀) <;>
        simp [lookupAssoc, h₀, ih]

theorem lookup_filter_none (b : List (String × JVal)) (k : String)
    (p : String × JVal → Bool) (h : ∀ w, p (k, w) = false) :
    lookupAssoc (b.filter p) k = none := by
  induction b with
  | nil => rfl
  | cons e rest ih =>
    obtain ⟨k₀, v₀⟩ := e
    rw [List.filter_cons]
    by_cases h₀ : k₀ = k
    · subst h₀; rw [h v₀]; exact ih
    · cases hp : p (k₀, v₀) <;> simp [lookupAssoc, h₀, ih]

theorem lookup_filter_true (b : List (String × JVal)) (k : String)
    (p : String × JVal → Bool) (h : ∀ w, p (k, w) = true) :
    lookupAssoc (b.filter p) k = lookupAssoc b k := by
  induction b with
  | nil => rfl
  | cons e rest ih =>
    obtain ⟨k₀, v₀⟩ := e
    rw [List.filter_cons]
    by_cases h₀ : k₀ = k
    · subst h₀; rw [h v₀]; simp [lookupAssoc, ih]
    · cases hp : p (k₀, v₀) <;> simp [lookupAssoc, h₀, ih]

theorem lookup_mergeAssoc (a b : List (String × JVal)) (k : String) :
    lookupAssoc (mergeAssoc a b) k = firstSome (lookupAssoc b k) (lookupAssoc a k) := by
  induction a with
  | nil =>
    rw [mergeAssoc]
    simp only [List.map_nil, List.nil_append]
    rw [lookup_filter_true b k _ (fun w => by simp [lookupAssoc])]
    show lookupAssoc b k = firstSome (lookupAssoc b k) none
    rw [firstSome_none_right]
  | cons p rest ih =>
    obtain ⟨k₀, v₀⟩ := p
    rw [mergeAssoc]
    simp only [List.map_cons, List.cons_append]
    by_cases h₀ : k₀ = k
    · subst h₀
      cases hb : lookupAssoc b k₀ <;> simp [lookupAssoc, hb]
    · rw [lookupAssoc, if_neg h₀, lookup_append]
      rw [mergeAssoc, lookup_append] at ih
      have hfil : lookupAssoc (List.filter (fun q => (lookupAssoc ((k₀, v₀) :: rest) q.1).isNone) b) k
          = lookupAssoc (List.filter (fun q => (lookupAssoc rest q.1).isNone) b) k :=
        lookup_filter_agree b k _ _ (fun w => by simp [lookupAssoc, h₀])
      rw [hfil, ih]
      conv_rhs => rw [lookupAssoc]
      rw [if_neg h₀]

theorem mergeAssoc_nil_right (a : List (String × JVal)) : mergeAssoc a [] = a := by
  rw [mergeAssoc]
  simp [lookupAssoc]

/-! ### Character and string lemmas -/

theorem toNat_ofNat_small {m : Nat} (h : m < 55296) : (Char.ofNat m).toNat = m := by
  have hv : m.isValidChar := Or.inl h
  rw [Char.ofNat, dif_pos hv]
  simp [Char.ofNatAux, Char.toNat]
  rfl

theorem toUpper_toUpper (c : Char) : c.toUpper.toUpper = c.toUpper := by
  unfold Char.toUpper
  by_cases h : c.toNat ≥ 97 ∧ c.toNat ≤ 122
  · rw [if_pos h]
    have h2 : (Char.ofNat (c.toNat - 32)).toNat = c.toNat - 32 :=
      toNat_ofNat_small (by omega)
    rw [if_neg (by rw [h2]; omega)]
  · rw [if_neg h, if_neg h]

theorem jsToUpper_idem (s : String) : jsToUpper (jsToUpper s) = jsToUpper s := by
  unfold jsToUpper
  simp only [List.map_map]
  congr 1
  apply List.map_congr_left
  intro c _
  exact toUpper_toUpper c

/-! ### Dispatch lemmas -/

theorem handleResource_start (d : String) (a : Action) (s : Resource) (o : Options) :
    handleResource (some d) (some "START") a s o = .ok (handleStart d a s o, []) := rfl

theorem handleResource_success (d : String) (a : Action) (s : Resource) (o : Options) :
    handleResource (some d) (some "SUCCESS") a s o = handleSuccess d a s o := rfl

theorem handleResource_failure (d : String) (a : Action) (s : Resource) (o : Options) :
    handleResource (some d) (some "FAILURE") a s o = .ok (handleFailure d a s o, []) := rfl

theorem handleResource_reset (d : String) (a : Action) (s : Resource) (o : Options) :
    handleResource (some d) (some "RESET") a s o = .ok (handleClear d a s o, []) := rfl

theorem handleResource_other (d m : String) (a : Action) (s : Resource) (o : Options)
    (h1 : m ≠ "START") (h2 : m ≠ "SUCCESS") (h3 : m ≠ "FAILURE") (h4 : m ≠ "RESET") :
    handleResource (some d) (some m) a s o = .ok (s, []) := by
  simp only [handleResource]
  rw [if_neg h1, if_neg h2, if_neg h3, if_neg h4]

theorem resourceReducer_mismatch (n : String) (o : Options) (s : Resource) (a : Action)
    (h : (jsSplit '/' a.type).headD "" ≠ jsToUpper n) :
    resourceReducer n o s a = .ok (s, []) := by
  simp only [resourceReducer]
  rw [if_neg (fun hh => h hh.symm)]

theorem resourceReducer_op (n : String) (o : Options) (s : Resource) (a : Action) (d m : String)
    (hsplit : jsSplit '/' a.type = [jsToUpper n, d, m])
    (h1 : d ≠ "RESOURCE") (h2 : d ≠ "META") (h3 : d ≠ "CHANGESET") :
    resourceReducer n o s a = handleResource (some d) (some m) a s o := by
  simp only [resourceReducer, hsplit]
  simp [h1, h2, h3]

theorem resourceReducer_changeset (n : String) (o : Options) (s : Resource) (a : Action) (m : String)
    (hsplit : jsSplit '/' a.type = [jsToUpper n, "CHANGESET", m]) :
    resourceReducer n o s a = handleChangeset (some m) a s o := by
  simp only [resourceReducer, hsplit]
  simp

theorem resourceReducer_metaDomain (n : String) (o : Options) (s : Resource) (a : Action) (m : String)
    (hsplit : jsSplit '/' a.type = [jsToUpper n, "META", m]) :
    resourceReducer n o s a = .ok ({ s with meta := [] }, []) := by
  simp only [resourceReducer, hsplit]
  simp

/-! ### Frame lemmas: which slice fields each algorithm can touch -/

theorem updateInResource_frame (p : JVal) (st : Resource) (o : Options) (s' : Resource)
    (w : List String) (h : updateInResource p st o = .ok (s', w)) :
    s'.meta = st.meta ∧ s'.status = st.status ∧ s'.changeset = st.changeset ∧
    updateElems o (toArray p) st.results st.entities [] = .ok (s'.results, s'.entities, w) := by
  unfold updateInResource at h
  cases hd : updateElems o (toArray p) st.results st.entities [] with
  | error e => rw [hd] at h; simp [Except.map] at h
  | ok t =>
    rw [hd] at h
    simp only [Except.map, Except.ok.injEq, Prod.mk.injEq] at h
    obtain ⟨hs, hw⟩ := h
    subst hs
    subst hw
    exact ⟨rfl, rfl, rfl, rfl⟩

theorem destroyInResource_frame (p : JVal) (st : Resource) (o : Options) (s' : Resource)
    (w : List String) (h : destroyInResource p st o = .ok (s', w)) :
    s'.meta = st.meta ∧ s'.status = st.status ∧ s'.changeset = st.changeset ∧ w = [] ∧
    destroyElems o (toArray p) st.results st.entities = .ok (s'.results, s'.entities) := by
  unfold destroyInResource at h
  cases hd : destroyElems o (toArray p) st.results st.entities with
  | error e => rw [hd] at h; simp [Except.map] at h
  | ok t =>
    rw [hd] at h
    simp only [Except.map, Except.ok.injEq, Prod.mk.injEq] at h
    obtain ⟨hs, hw⟩ := h
    subst hs
    subst hw
    exact ⟨rfl, rfl, rfl, rfl, rfl⟩

theorem handleSuccess_frame (d : String) (a : Action) (s : Resource) (o : Options)
    (s' : Resource) (w : List String)
    (hp : truthy a.payload = true) (h : handleSuccess d a s o = .ok (s', w)) :
    s'.meta = (successState d a s).meta ∧ s'.status = (successState d a s).status ∧
    s'.changeset = s.changeset := by
  unfold handleSuccess at h
  rw [if_neg (by simp [hp])] at h
  by_cases hd : d = "DESTROY"
  · rw [if_pos hd] at h
    have hf := destroyInResource_frame _ _ _ _ _ h
    exact ⟨hf.1, hf.2.1, hf.2.2.1⟩
  · rw [if_neg hd] at h
    have hf := updateInResource_frame _ _ _ _ _ h
    exact ⟨hf.1, hf.2.1, hf.2.2.1⟩

/-! ### Sample state for witnesses -/

/-- A non-initial state used to instantiate theorems with hypotheses. -/
def sampleState : Resource :=
  { results := [.num 1]
    entities := [("1", .obj [("id", .num 1)])]
    meta := [("page", .num 3)]
    changeset := [("default", .obj [("name", .str "x")])]
    status := createStatus }

/-! ### Claim theorems -/

/-- C9: for every state and every action whose type's first `/`-segment
differs from the uppercased configured resource name, the reducer returns
the state itself, unchanged, whatever the remaining segments, payload and
meta are. -/
theorem c9_identity_on_mismatch (n : String) (o : Options) (s : Resource) (a : Action)
    (h : (jsSplit '/' a.type).headD "" ≠ jsToUpper n) :
    resourceReducer n o s a = .ok (s, []) :=
  resourceReducer_mismatch n o s a h

theorem c9_identity_on_mismatch_witness :
    resourceReducer "USERS" defaultOptions sampleState
      { type := "OTHER/FETCH/SUCCESS", payload := .num 1 } = .ok (sampleState, []) :=
  c9_identity_on_mismatch "USERS" defaultOptions sampleState
    { type := "OTHER/FETCH/SUCCESS", payload := .num 1 } (by decide)

/-- C5: a SUCCESS action under any operation domain whose payload is falsy
(`null`, `undefined`, `0`, `""`, `false`) is a no-op: the reducer returns a
state equal to the input state, with no status, entity, meta or changeset
modification. -/
theorem c5_falsy_success_noop (n : String) (o : Options) (s : Resource) (a : Action) (d : String)
    (hsplit : jsSplit '/' a.type = [jsToUpper n, d, "SUCCESS"])
    (h1 : d ≠ "RESOURCE") (h2 : d ≠ "META") (h3 : d ≠ "CHANGESET")
    (hp : truthy a.payload = false) :
    resourceReducer n o s a = .ok (s, []) := by
  rw [resourceReducer_op n o s a d "SUCCESS" hsplit h1 h2 h3, handleResource_success]
  unfold handleSuccess
  rw [if_pos hp]

theorem c5_falsy_success_noop_witness :
    resourceReducer "USERS" defaultOptions sampleState
      { type := "USERS/FETCH/SUCCESS", payload := .num 0, meta := .obj [("x", .num 5)] }
    = .ok (sampleState, []) :=
  c5_falsy_success_noop "USERS" defaultOptions sampleState
    { type := "USERS/FETCH/SUCCESS", payload := .num 0, meta := .obj [("x", .num 5)] }
    "FETCH" (by decide) (by decide) (by decide) (by decide) (by decide)

/-- C6: a FAILURE action under an operation domain sets that operation's
status (the domain lower-cased) to exactly pending `true`, busy `false`,
success `false`, with payload `errorReducer(domain, payload, meta)` when
the action payload is truthy and `null` otherwise; every other slice field
is unchanged. -/
theorem c6_failure_status (n : String) (o : Options) (s : Resource) (a : Action) (d : String)
    (hsplit : jsSplit '/' a.type = [jsToUpper n, d, "FAILURE"])
    (h1 : d ≠ "RESOURCE") (h2 : d ≠ "META") (h3 : d ≠ "CHANGESET") :
    resourceReducer n o s a
    = .ok ({ s with status := setAssoc s.status (jsToLower d) (failureStatus o d a) }, []) := by
  rw [resourceReducer_op n o s a d "FAILURE" hsplit h1 h2 h3, handleResource_failure]
  rfl

/-- C8: for a SUCCESS action with truthy payload, a `meta` of exactly
`null` or exactly `false` empties the slice's `meta`; otherwise the new
`meta` is the shallow merge of the action's `meta` fields over the
existing `meta`, the action's keys winning on conflict; in particular an
absent (`undefined`) action `meta` leaves the stored `meta` unchanged. -/
theorem c8_meta_merge (n : String) (o : Options) (s : Resource) (a : Action) (d : String)
    (s' : Resource) (w : List String)
    (hsplit : jsSplit '/' a.type = [jsToUpper n, d, "SUCCESS"])
    (h1 : d ≠ "RESOURCE") (h2 : d ≠ "META") (h3 : d ≠ "CHANGESET")
    (hp : truthy a.payload = true)
    (hok : resourceReducer n o s a = .ok (s', w)) :
    (a.meta = JVal.null ∨ a.meta = JVal.bool false → s'.meta = []) ∧
    (a.meta ≠ JVal.null → a.meta ≠ JVal.bool false →
      ∀ k, lookupAssoc s'.meta k
        = firstSome (lookupAssoc (spreadFields a.meta) k) (lookupAssoc s.meta k)) ∧
    (a.meta = JVal.undefined → s'.meta = s.meta) := by
  rw [resourceReducer_op n o s a d "SUCCESS" hsplit h1 h2 h3, handleResource_success] at hok
  have hmeta := (handleSuccess_frame d a s o s' w hp hok).1
  rw [successState] at hmeta
  simp only at hmeta
  refine ⟨?_, ?_, ?_⟩
  · intro hnull
    rw [hmeta, if_pos hnull]
  · intro hn hf k
    rw [hmeta, if_neg (by tauto)]
    exact lookup_mergeAssoc s.meta (spreadFields a.meta) k
  · intro hu
    rw [hmeta, if_neg (by rw [hu]; intro hc; rcases hc with hc | hc <;> exact JVal.noConfusion hc)]
    rw [hu]
    show mergeAssoc s.meta [] = s.meta
    exact mergeAssoc_nil_right s.meta

/-- The SUCCESS action used to witness the meta-merge law. -/
def act8 : Action :=
  { type := "USERS/UPDATE/SUCCESS", payload := .obj [("id", .num 1)], meta := .obj [("page", .num 9)] }

/-- The state produced by applying `act8` to `sampleState`. -/
def state8 : Resource :=
  match resourceReducer "USERS" defaultOptions sampleState act8 with
  | .ok p => p.1
  | .error _ => initialResourceState

theorem c8_meta_merge_witness :
    lookupAssoc state8.meta "page"
      = firstSome (lookupAssoc (spreadFields act8.meta) "page") (lookupAssoc sampleState.meta "page") :=
  (c8_meta_merge "USERS" defaultOptions sampleState act8 "UPDATE" state8 [] (by decide)
    (by decide) (by decide) (by decide) (by decide) (by decide)).2.1
    (by decide) (by decide) "page"

/-- C1 counterexample: with configured name `USERS`, the action type
`users/META/RESET` (first segment equal to the configured name up to
letter case) is NOT treated as targeting the slice — the state (whose
`meta` is non-empty) is returned unchanged instead of having its `meta`
cleared, so the match is not performed by uppercasing both sides. -/
theorem c1_counterexample :
    resourceReducer "USERS" defaultOptions sampleState { type := "users/META/RESET" }
      = .ok (sampleState, []) ∧ sampleState.meta ≠ [] := by
  decide

/-- C1 (amended): the name match is case-insensitive only in the
configured name: the reducer behaves identically for any casing of the
configured resource name (both are uppercased to the same name), but the
action's first segment is compared case-sensitively against that
uppercased name — a mismatching segment leaves the state unchanged, and a
segment equal to the uppercased name dispatches (e.g. a `META` action then
clears `meta`). -/
theorem c1_amended_configured_case_only (n : String) (o : Options) (s : Resource) (a : Action) :
    resourceReducer n o s a = resourceReducer (jsToUpper n) o s a ∧
    ((jsSplit '/' a.type).headD "" ≠ jsToUpper n → resourceReducer n o s a = .ok (s, [])) ∧
    (jsSplit '/' a.type = [jsToUpper n, "META", "RESET"] →
      resourceReducer n o s a = .ok ({ s with meta := [] }, [])) := by
  refine ⟨?_, ?_, ?_⟩
  · unfold resourceReducer
    rw [jsToUpper_idem]
  · intro h
    exact resourceReducer_mismatch n o s a h
  · intro h
    exact resourceReducer_metaDomain n o s a "RESET" h

theorem c1_amended_configured_case_only_witness :
    resourceReducer "users" defaultOptions sampleState { type := "USERS/META/RESET" }
      = .ok ({ sampleState with meta := [] }, []) :=
  (c1_amended_configured_case_only "users" defaultOptions sampleState
    { type := "USERS/META/RESET" }).2.2 (by decide)

theorem c6_failure_status_witness :
    (resourceReducer "USERS" defaultOptions sampleState
      { type := "USERS/FETCH/FAILURE", payload := .str "boom" }).map
      (fun p => lookupAssoc p.1.status "fetch")
    = .ok (some (JVal.obj
        [("pending", .bool true), ("busy", .bool false), ("success", .bool false),
         ("payload", .str "boom")])) := by
  rw [c6_failure_status "USERS" defaultOptions sampleState
    { type := "USERS/FETCH/FAILURE", payload := .str "boom" } "FETCH"
    (by decide) (by decide) (by decide) (by decide)]
  decide

/-! ### Totality machinery (claim C2) -/

theorem updateElems_total (o : Options) (elems : List JVal) :
    ∀ (r : List JVal) (en : List (String × JVal)) (w : List String),
    (∀ e ∈ elems, e ≠ JVal.null ∧ e ≠ JVal.undefined) →
    ∃ t, updateElems o elems r en w = .ok t := by
  induction elems with
  | nil => intro r en w _; exact ⟨_, rfl⟩
  | cons e rest ih =>
    intro r en w h
    have he := h e (by simp)
    have hrest : ∀ e ∈ rest, e ≠ JVal.null ∧ e ≠ JVal.undefined :=
      fun x hx => h x (by simp [hx])
    rw [updateElems]
    rw [if_neg (by rintro (hc | hc) <;> [exact he.1 hc; exact he.2 hc])]
    by_cases hid : truthy (getFieldD e o.idAttribute) = true
    · rw [if_pos hid]
      exact ih _ _ _ hrest
    · rw [if_neg hid]
      exact ih _ _ _ hrest

theorem destroyElems_total (o : Options) (elems : List JVal) :
    ∀ (r : List JVal) (en : List (String × JVal)),
    (∀ e ∈ elems, e ≠ JVal.null ∧ e ≠ JVal.undefined) →
    ∃ t, destroyElems o elems r en = .ok t := by
  induction elems with
  | nil => intro r en _; exact ⟨_, rfl⟩
  | cons e rest ih =>
    intro r en h
    have he := h e (by simp)
    have hrest : ∀ e ∈ rest, e ≠ JVal.null ∧ e ≠ JVal.undefined :=
      fun x hx => h x (by simp [hx])
    rw [destroyElems]
    rw [if_neg (by rintro (hc | hc) <;> [exact he.1 hc; exact he.2 hc])]
    exact ih _ _ hrest

theorem getElem1_of_getElem2 (l : List String) (m : String) (h : l[2]? = some m) :
    ∃ d, l[1]? = some d := by
  match l with
  | [] => simp at h
  | [x] => simp at h
  | x :: y :: t => exact ⟨y, by simp⟩

/-- The inputs on which the reducer (with default options) is fault-free:
when the action targets the slice, a CHANGESET action must not carry a
`null` meta and a CHANGESET/REMOVE with a non-empty field list needs an
existing (non-`null`, non-`undefined`) buffer for the targeted form, and a
SUCCESS action under an operation domain must not carry `null`/`undefined`
payload elements. -/
abbrev SafeInput (n : String) (s : Resource) (a : Action) : Prop :=
  jsToUpper n = (jsSplit '/' a.type).headD "" →
  (((jsSplit '/' a.type)[1]? = some "CHANGESET" →
      a.meta ≠ JVal.null ∧
      ((jsSplit '/' a.type)[2]? = some "REMOVE" → toArray a.payload ≠ [] →
        lookupAssoc s.changeset
          (formKeyOf (if a.meta = JVal.undefined then JVal.obj [] else a.meta)) ≠ none ∧
        lookupAssoc s.changeset
          (formKeyOf (if a.meta = JVal.undefined then JVal.obj [] else a.meta)) ≠ some JVal.null ∧
        lookupAssoc s.changeset
          (formKeyOf (if a.meta = JVal.undefined then JVal.obj [] else a.meta)) ≠ some JVal.undefined)) ∧
    ((jsSplit '/' a.type)[1]? ≠ some "RESOURCE" → (jsSplit '/' a.type)[1]? ≠ some "META" →
      (jsSplit '/' a.type)[1]? ≠ some "CHANGESET" →
      (jsSplit '/' a.type)[2]? = some "SUCCESS" →
      ∀ e ∈ toArray a.payload, e ≠ JVal.null ∧ e ≠ JVal.undefined))

theorem handleChangeset_total (m : Option String) (a : Action) (s : Resource) (o : Options)
    (hmeta : a.meta ≠ JVal.null)
    (hbuf : ∀ mm, m = some mm → mm = "REMOVE" → toArray a.payload ≠ [] →
      lookupAssoc s.changeset
        (formKeyOf (if a.meta = JVal.undefined then JVal.obj [] else a.meta)) ≠ none ∧
      lookupAssoc s.changeset
        (formKeyOf (if a.meta = JVal.undefined then JVal.obj [] else a.meta)) ≠ some JVal.null ∧
      lookupAssoc s.changeset
        (formKeyOf (if a.meta = JVal.undefined then JVal.obj [] else a.meta)) ≠ some JVal.undefined) :
    ∃ p, handleChangeset m a s o = .ok p := by
  unfold handleChangeset
  have hmeta' : (if a.meta = JVal.undefined then JVal.obj [] else a.meta) ≠ JVal.null := by
    by_cases hu : a.meta = JVal.undefined
    · rw [if_pos hu]; intro hc; exact JVal.noConfusion hc
    · rw [if_neg hu]; exact hmeta
  rw [if_neg hmeta']
  cases m with
  | none => exact ⟨_, rfl⟩
  | some mm =>
    simp only [changesetSwitch]
    by_cases h1 : mm = "MERGE"
    · rw [if_pos h1]; exact ⟨_, rfl⟩
    · rw [if_neg h1]
      by_cases h2 : mm = "REMOVE"
      · rw [if_pos h2]
        cases hfl : toArray a.payload with
        | nil => exact ⟨_, rfl⟩
        | cons f fs =>
          have hb := hbuf mm rfl h2 (by rw [hfl]; intro hc; exact List.noConfusion hc)
          rw [removeFields]
          cases hlk : lookupAssoc s.changeset
              (formKeyOf (if a.meta = JVal.undefined then JVal.obj [] else a.meta)) with
          | none => exact absurd hlk hb.1
          | some buf =>
            rw [removeFieldsNE]
            rw [if_neg ?_]
            · exact ⟨_, rfl⟩
            · rintro (hc | hc)
              · subst hc; exact hb.2.1 hlk
              · subst hc; exact hb.2.2 hlk
      · rw [if_neg h2]
        by_cases h3 : mm = "RESET"
        · rw [if_pos h3]; exact ⟨_, rfl⟩
        · rw [if_neg h3]; exact ⟨_, rfl⟩

theorem handleSuccess_total (d : String) (a : Action) (s : Resource)
    (helems : ∀ e ∈ toArray a.payload, e ≠ JVal.null ∧ e ≠ JVal.undefined) :
    ∃ p, handleSuccess d a s defaultOptions = .ok p := by
  unfold handleSuccess
  by_cases hp : truthy a.payload = false
  · rw [if_pos hp]; exact ⟨_, rfl⟩
  · rw [if_neg hp]
    have hdata : defaultOptions.entityReducer d a.payload a.meta = a.payload := rfl
    by_cases hd : d = "DESTROY"
    · rw [if_pos hd]
      unfold destroyInResource
      rw [hdata]
      obtain ⟨t, ht⟩ := destroyElems_total defaultOptions (toArray a.payload) _ _ helems
      rw [ht]
      exact ⟨_, rfl⟩
    · rw [if_neg hd]
      unfold updateInResource
      rw [hdata]
      obtain ⟨t, ht⟩ := updateElems_total defaultOptions (toArray a.payload) _ _ _ helems
      rw [ht]
      exact ⟨_, rfl⟩

/-- C2 (amended): the reducer can throw. On every `SafeInput` it returns a
state, but a CHANGESET/REMOVE action whose `meta.form` (or the default
form) names a form with no existing buffer faults instead of returning a
state (see the counterexample), as does a CHANGESET action with `null`
meta or a SUCCESS action with `null`/`undefined` payload elements. -/
theorem c2_amended_no_throw (n : String) (s : Resource) (a : Action)
    (hsafe : SafeInput n s a) :
    ∃ p, resourceReducer n defaultOptions s a = .ok p := by
  by_cases hname : jsToUpper n = (jsSplit '/' a.type).headD ""
  case neg =>
    exact ⟨_, resourceReducer_mismatch n defaultOptions s a (fun hh => hname hh.symm)⟩
  case pos =>
    obtain ⟨hcs, hop⟩ := hsafe hname
    simp only [resourceReducer]
    rw [if_pos hname]
    by_cases h1 : (jsSplit '/' a.type)[1]? = some "RESOURCE"
    · rw [if_pos h1]; exact ⟨_, rfl⟩
    · rw [if_neg h1]
      by_cases h2 : (jsSplit '/' a.type)[1]? = some "META"
      · rw [if_pos h2]; exact ⟨_, rfl⟩
      · rw [if_neg h2]
        by_cases h3 : (jsSplit '/' a.type)[1]? = some "CHANGESET"
        · rw [if_pos h3]
          obtain ⟨hmeta, hbuf⟩ := hcs h3
          exact handleChangeset_total _ a s defaultOptions hmeta
            (fun mm hmmeq hmm' hne => hbuf (by rw [hmmeq, hmm']) hne)
        · rw [if_neg h3]
          cases hm : (jsSplit '/' a.type)[2]? with
          | none =>
            cases hd : (jsSplit '/' a.type)[1]? with
            | none => exact ⟨_, rfl⟩
            | some d => exact ⟨_, rfl⟩
          | some m =>
            obtain ⟨d, hd⟩ := getElem1_of_getElem2 _ _ hm
            rw [hd]
            by_cases hm1 : m = "START"
            · subst hm1; rw [handleResource_start]; exact ⟨_, rfl⟩
            · by_cases hm2 : m = "SUCCESS"
              · subst hm2
                rw [handleResource_success]
                exact handleSuccess_total d a s (hop h1 h2 h3 hm)
              · by_cases hm3 : m = "FAILURE"
                · subst hm3; rw [handleResource_failure]; exact ⟨_, rfl⟩
                · by_cases hm4 : m = "RESET"
                  · subst hm4; rw [handleResource_reset]; exact ⟨_, rfl⟩
                  · rw [handleResource_other d m a s defaultOptions hm1 hm2 hm3 hm4]
                    exact ⟨_, rfl⟩

/-- C2 counterexample: a CHANGESET/REMOVE action targeting the default
form, which has no buffer in the initial state, throws a TypeError instead
of returning a state. -/
theorem c2_counterexample :
    resourceReducer "USERS" defaultOptions initialResourceState
      { type := "USERS/CHANGESET/REMOVE", payload := .str "name" }
      = .error "TypeError: cannot convert undefined to object" := by
  decide

theorem c2_amended_no_throw_witness :
    ∃ p, resourceReducer "USERS" defaultOptions sampleState
      { type := "USERS/CHANGESET/REMOVE", payload := .str "name" } = .ok p :=
  c2_amended_no_throw "USERS" sampleState
    { type := "USERS/CHANGESET/REMOVE", payload := .str "name" }
    (fun _ =>
      ⟨fun _ => ⟨by decide, fun _ _ => ⟨by decide, by decide, by decide⟩⟩,
       fun _ _ _ h4 => absurd h4 (by decide)⟩)

/-! ### Claim C10: destroy with a missing identifier is silent -/

/-- C10: a DESTROY SUCCESS payload element that is an object without the
configured identifier field yields the identifier `undefined`; when that
identifier matches no `results` entry and no `entities` key, the destroy
step leaves `results` and `entities` unchanged and emits no diagnostic —
whereas the update path on the very same element emits the
missing-identifier warning (also leaving `results`/`entities` unchanged). -/
theorem c10_destroy_missing_id_silent (n : String) (s : Resource) (ad au : Action)
    (fields : List (String × JVal))
    (hsd : jsSplit '/' ad.type = [jsToUpper n, "DESTROY", "SUCCESS"])
    (hsu : jsSplit '/' au.type = [jsToUpper n, "UPDATE", "SUCCESS"])
    (hpd : ad.payload = JVal.obj fields) (hpu : au.payload = JVal.obj fields)
    (hid : lookupAssoc fields "id" = none)
    (hres : JVal.undefined ∉ s.results) (hent : lookupAssoc s.entities "undefined" = none) :
    (∃ s', resourceReducer n defaultOptions s ad = .ok (s', []) ∧
      s'.results = s.results ∧ s'.entities = s.entities) ∧
    (∃ s', resourceReducer n defaultOptions s au = .ok (s', [warnMsg "id"]) ∧
      s'.results = s.results ∧ s'.entities = s.entities) := by
  have hgf : getFieldD (JVal.obj fields) "id" = JVal.undefined := by
    simp [getFieldD, hid]
  have hobjne : ¬(JVal.obj fields = JVal.null ∨ JVal.obj fields = JVal.undefined) := by
    rintro (h | h) <;> exact JVal.noConfusion h
  have hta : toArray (JVal.obj fields) = [JVal.obj fields] := rfl
  have herase : s.results.erase JVal.undefined = s.results := List.erase_of_not_mem hres
  have hdel : delAssoc s.entities "undefined" = s.entities :=
    delAssoc_of_not_mem s.entities "undefined" ((lookupAssoc_eq_none_iff _ _).mp hent)
  have hdid : destroyId defaultOptions (JVal.obj fields) = JVal.undefined := by
    simp [destroyId, getFieldD, hid, defaultOptions]
  have hattr : defaultOptions.idAttribute = "id" := rfl
  constructor
  · rw [resourceReducer_op n defaultOptions s ad "DESTROY" "SUCCESS" hsd
      (by decide) (by decide) (by decide), handleResource_success]
    unfold handleSuccess
    rw [if_neg (by rw [hpd]; simp [truthy])]
    rw [if_pos rfl]
    have hdata : defaultOptions.entityReducer "DESTROY" ad.payload ad.meta = ad.payload := rfl
    rw [hdata, hpd]
    unfold destroyInResource
    rw [hta, destroyElems, if_neg hobjne]
    simp only [hdid]
    have hsr : (successState "DESTROY" ad s).results = s.results := rfl
    have hse : (successState "DESTROY" ad s).entities = s.entities := rfl
    have htk : toKey JVal.undefined = "undefined" := rfl
    rw [hsr, hse, htk, herase, hdel, destroyElems]
    exact ⟨_, rfl, rfl, rfl⟩
  · rw [resourceReducer_op n defaultOptions s au "UPDATE" "SUCCESS" hsu
      (by decide) (by decide) (by decide), handleResource_success]
    unfold handleSuccess
    rw [if_neg (by rw [hpu]; simp [truthy])]
    rw [if_neg (by decide)]
    have hdata : defaultOptions.entityReducer "UPDATE" au.payload au.meta = au.payload := rfl
    rw [hdata, hpu]
    unfold updateInResource
    rw [hta, updateElems, if_neg hobjne]
    simp only [hattr, hgf]
    rw [if_neg (by simp [truthy])]
    rw [updateElems]
    simp only [Except.map, List.nil_append]
    exact ⟨_, rfl, rfl, rfl⟩

theorem c10_destroy_missing_id_silent_witness :
    (∃ s', resourceReducer "USERS" defaultOptions sampleState
        { type := "USERS/DESTROY/SUCCESS", payload := .obj [("name", .str "x")] } = .ok (s', []) ∧
      s'.results = sampleState.results ∧ s'.entities = sampleState.entities) ∧
    (∃ s', resourceReducer "USERS" defaultOptions sampleState
        { type := "USERS/UPDATE/SUCCESS", payload := .obj [("name", .str "x")] }
        = .ok (s', [warnMsg "id"]) ∧
      s'.results = sampleState.results ∧ s'.entities = sampleState.entities) :=
  c10_destroy_missing_id_silent "USERS" sampleState
    { type := "USERS/DESTROY/SUCCESS", payload := .obj [("name", .str "x")] }
    { type := "USERS/UPDATE/SUCCESS", payload := .obj [("name", .str "x")] }
    [("name", .str "x")]
    (by decide) (by decide) rfl rfl (by decide) (by decide) (by decide)

/-! ### Claim C4: the update algorithm, element by element -/

/-- The update-element loop's observable behavior on a whole element list:
existing identifiers keep their positions (the old `results` is a prefix),
new truthy identifiers are appended (each once, never one already
present), only truthy identifiers of payload elements ever enter
`results`, an entity key matched by no element is untouched, and a matched
key holds the last matching element (the default `onUpdate` stores the
element unmodified). -/
theorem updateElems_spec (elems : List JVal) :
    ∀ (r : List JVal) (en : List (String × JVal)) (w : List String) r' en' w',
    updateElems defaultOptions elems r en w = .ok (r', en', w') →
    ((∃ suffix, r' = r ++ suffix ∧ suffix.Nodup ∧ ∀ id ∈ suffix, id ∉ r) ∧
     (∀ x, x ∈ r' ↔ x ∈ r ∨ ∃ e ∈ elems,
        truthy (getFieldD e "id") = true ∧ getFieldD e "id" = x) ∧
     (∀ k, elems.filter (fun e => truthy (getFieldD e "id")
          && (toKey (getFieldD e "id") == k)) = [] →
        lookupAssoc en' k = lookupAssoc en k) ∧
     (∀ k e, (elems.filter (fun e => truthy (getFieldD e "id")
          && (toKey (getFieldD e "id") == k))).getLast? = some e →
        lookupAssoc en' k = some e)) := by
  have hattr : defaultOptions.idAttribute = "id" := rfl
  induction elems with
  | nil =>
    intro r en w r' en' w' h
    rw [updateElems] at h
    simp only [Except.ok.injEq, Prod.mk.injEq] at h
    obtain ⟨hr, he, hw⟩ := h
    subst hr
    subst he
    refine ⟨⟨[], by simp, List.nodup_nil, by simp⟩, ?_, ?_, ?_⟩
    · intro x; simp
    · intro k _; rfl
    · intro k e hlast; simp at hlast
  | cons e rest ih =>
    intro r en w r' en' w' h
    rw [updateElems] at h
    by_cases hc : e = JVal.null ∨ e = JVal.undefined
    · rw [if_pos hc] at h; exact Except.noConfusion h
    · rw [if_neg hc] at h
      simp only [hattr] at h
      by_cases hid : truthy (getFieldD e "id") = true
      · rw [if_pos hid] at h
        by_cases hmem : getFieldD e "id" ∈ r
        · rw [if_pos hmem] at h
          obtain ⟨⟨suffix, hsuf, hnds, hsufnot⟩, hmemiff, hent3, hent4⟩ :=
            ih _ _ _ _ _ _ h
          refine ⟨⟨suffix, hsuf, hnds, hsufnot⟩, ?_, ?_, ?_⟩
          · intro x
            rw [hmemiff x]
            constructor
            · rintro (hx | ⟨e', he', ht, hx⟩)
              · exact Or.inl hx
              · exact Or.inr ⟨e', List.mem_cons_of_mem _ he', ht, hx⟩
            · rintro (hx | ⟨e', he', ht, hx⟩)
              · exact Or.inl hx
              · rcases List.mem_cons.mp he' with rfl | he'
                · subst hx; exact Or.inl hmem
                · exact Or.inr ⟨e', he', ht, hx⟩
          · intro k hfil
            rw [List.filter_cons] at hfil
            by_cases hpk : (truthy (getFieldD e "id")
                && (toKey (getFieldD e "id") == k)) = true
            · rw [if_pos hpk] at hfil; exact List.noConfusion hfil
            · rw [if_neg hpk] at hfil
              have hkne : toKey (getFieldD e "id") ≠ k := by
                intro hkk; exact hpk (by simp [hid, hkk])
              rw [hent3 k hfil]
              exact lookup_setAssoc_ne en _ k _ hkne
          · intro k e' hlast
            rw [List.filter_cons] at hlast
            by_cases hpk : (truthy (getFieldD e "id")
                && (toKey (getFieldD e "id") == k)) = true
            · rw [if_pos hpk] at hlast
              have hkk : toKey (getFieldD e "id") = k := by
                simp [hid] at hpk; exact hpk
              cases hfr : rest.filter (fun x => truthy (getFieldD x "id")
                  && (toKey (getFieldD x "id") == k)) with
              | nil =>
                rw [hfr] at hlast
                obtain rfl : e = e' := by simpa using hlast
                rw [hent3 k hfr, ← hkk]
                exact lookup_setAssoc_self en _ _
              | cons f fs =>
                rw [hfr] at hlast
                refine hent4 k e' ?_
                rw [hfr]
                rw [← List.getLast?_cons_cons]
                exact hlast
            · rw [if_neg hpk] at hlast
              exact hent4 k e' hlast
        · rw [if_neg hmem] at h
          obtain ⟨⟨suffix, hsuf, hnds, hsufnot⟩, hmemiff, hent3, hent4⟩ :=
            ih _ _ _ _ _ _ h
          refine ⟨⟨getFieldD e "id" :: suffix, ?_, ?_, ?_⟩, ?_, ?_, ?_⟩
          · rw [hsuf, List.append_assoc]
            rfl
          · rw [List.nodup_cons]
            refine ⟨fun hin => ?_, hnds⟩
            exact hsufnot _ hin (List.mem_append_right r (List.mem_singleton_self _))
          · intro x hx
            rcases List.mem_cons.mp hx with rfl | hx
            · exact hmem
            · intro hxr
              exact hsufnot x hx (List.mem_append_left _ hxr)
          · intro x
            rw [hmemiff x]
            constructor
            · rintro (hx | ⟨e', he', ht, hx⟩)
              · rcases List.mem_append.mp hx with hx | hx
                · exact Or.inl hx
                · rcases List.mem_singleton.mp hx with rfl
                  exact Or.inr ⟨e, List.mem_cons_self _ _, hid, rfl⟩
              · exact Or.inr ⟨e', List.mem_cons_of_mem _ he', ht, hx⟩
            · rintro (hx | ⟨e', he', ht, hx⟩)
              · exact Or.inl (List.mem_append_left _ hx)
              · rcases List.mem_cons.mp he' with rfl | he'
                · subst hx
                  exact Or.inl (List.mem_append_right r (List.mem_singleton_self _))
                · exact Or.inr ⟨e', he', ht, hx⟩
          · intro k hfil
            rw [List.filter_cons] at hfil
            by_cases hpk : (truthy (getFieldD e "id")
                && (toKey (getFieldD e "id") == k)) = true
            · rw [if_pos hpk] at hfil; exact List.noConfusion hfil
            · rw [if_neg hpk] at hfil
              have hkne : toKey (getFieldD e "id") ≠ k := by
                intro hkk; exact hpk (by simp [hid, hkk])
              rw [hent3 k hfil]
              exact lookup_setAssoc_ne en _ k _ hkne
          · intro k e' hlast
            rw [List.filter_cons] at hlast
            by_cases hpk : (truthy (getFieldD e "id")
                && (toKey (getFieldD e "id") == k)) = true
            · rw [if_pos hpk] at hlast
              have hkk : toKey (getFieldD e "id") = k := by
                simp [hid] at hpk; exact hpk
              cases hfr : rest.filter (fun x => truthy (getFieldD x "id")
                  && (toKey (getFieldD x "id") == k)) with
              | nil =>
                rw [hfr] at hlast
                obtain rfl : e = e' := by simpa using hlast
                rw [hent3 k hfr, ← hkk]
                exact lookup_setAssoc_self en _ _
              | cons f fs =>
                rw [hfr] at hlast
                refine hent4 k e' ?_
                rw [hfr]
                rw [← List.getLast?_cons_cons]
                exact hlast
            · rw [if_neg hpk] at hlast
              exact hent4 k e' hlast
      · rw [if_neg hid] at h
        have hidf : truthy (getFieldD e "id") = false := by
          cases hb : truthy (getFieldD e "id")
          · rfl
          · exact absurd hb hid
        obtain ⟨h1, hmemiff, hent3, hent4⟩ := ih _ _ _ _ _ _ h
        refine ⟨h1, ?_, ?_, ?_⟩
        · intro x
          rw [hmemiff x]
          constructor
          · rintro (hx | ⟨e', he', ht, hx⟩)
            · exact Or.inl hx
            · exact Or.inr ⟨e', List.mem_cons_of_mem _ he', ht, hx⟩
          · rintro (hx | ⟨e', he', ht, hx⟩)
            · exact Or.inl hx
            · rcases List.mem_cons.mp he' with rfl | he'
              · rw [hidf] at ht; exact Bool.noConfusion ht
              · exact Or.inr ⟨e', he', ht, hx⟩
        · intro k hfil
          rw [List.filter_cons, if_neg (by simp [hidf])] at hfil
          exact hent3 k hfil
        · intro k e' hlast
          rw [List.filter_cons, if_neg (by simp [hidf])] at hlast
          exact hent4 k e' hlast

/-- C4: a SUCCESS action under a non-DESTROY operation domain with a
truthy payload (coerced to an array by wrapping a non-array value) is
merged element by element, with the default options: identifiers already
present in `results` keep their exact positions (the old `results` is a
prefix of the new one) and each new truthy identifier is appended at the
end, once; an element with a falsy identifier is skipped — only truthy
identifiers of payload elements ever enter `results`; an entity key
matched by no element keeps its value, and a key matched by some element
stores `onUpdate(previous, element)` of the last matching element — the
element itself, unmodified, under the default `onUpdate`. -/
theorem c4_update_elements (n : String) (s : Resource) (a : Action) (d : String)
    (s' : Resource) (w : List String)
    (hsplit : jsSplit '/' a.type = [jsToUpper n, d, "SUCCESS"])
    (h1 : d ≠ "RESOURCE") (h2 : d ≠ "META") (h3 : d ≠ "CHANGESET") (h4 : d ≠ "DESTROY")
    (hp : truthy a.payload = true)
    (hok : resourceReducer n defaultOptions s a = .ok (s', w)) :
    (∃ suffix, s'.results = s.results ++ suffix ∧ suffix.Nodup ∧
      ∀ id ∈ suffix, id ∉ s.results) ∧
    (∀ x, x ∈ s'.results ↔ x ∈ s.results ∨ ∃ e ∈ toArray a.payload,
      truthy (getFieldD e "id") = true ∧ getFieldD e "id" = x) ∧
    (∀ k, (toArray a.payload).filter (fun e => truthy (getFieldD e "id")
        && (toKey (getFieldD e "id") == k)) = [] →
      lookupAssoc s'.entities k = lookupAssoc s.entities k) ∧
    (∀ k e, ((toArray a.payload).filter (fun e => truthy (getFieldD e "id")
        && (toKey (getFieldD e "id") == k))).getLast? = some e →
      lookupAssoc s'.entities k = some e) := by
  rw [resourceReducer_op n defaultOptions s a d "SUCCESS" hsplit h1 h2 h3,
    handleResource_success] at hok
  unfold handleSuccess at hok
  rw [if_neg (by simp [hp])] at hok
  rw [if_neg h4] at hok
  have hdata : defaultOptions.entityReducer d a.payload a.meta = a.payload := rfl
  rw [hdata] at hok
  obtain ⟨_, _, _, hue⟩ := updateInResource_frame _ _ _ _ _ hok
  have hsr : (successState d a s).results = s.results := rfl
  have hse : (successState d a s).entities = s.entities := rfl
  rw [hsr, hse] at hue
  exact updateElems_spec _ _ _ _ _ _ _ hue

/-- The UPDATE action used to witness the update algorithm: an array
payload with an existing identifier, a new identifier, and an element
whose identifier is missing. -/
def act4 : Action :=
  { type := "USERS/UPDATE/SUCCESS",
    payload := .arr [.obj [("id", .num 1), ("name", .str "A2")],
                     .obj [("id", .num 2)],
                     .obj [("name", .str "noid")]] }

/-- The state produced by applying `act4` to `sampleState`. -/
def state4 : Resource :=
  match resourceReducer "USERS" defaultOptions sampleState act4 with
  | .ok p => p.1
  | .error _ => initialResourceState

theorem c4_update_elements_witness :
    (∃ suffix, state4.results = sampleState.results ++ suffix ∧ suffix.Nodup ∧
      ∀ id ∈ suffix, id ∉ sampleState.results) ∧
    lookupAssoc state4.entities "1"
      = some (JVal.obj [("id", JVal.num 1), ("name", JVal.str "A2")]) :=
  ⟨(c4_update_elements "USERS" sampleState act4 "UPDATE" state4 [warnMsg "id"]
      (by decide) (by decide) (by decide) (by decide) (by decide) (by decide)
      (by decide)).1,
   (c4_update_elements "USERS" sampleState act4 "UPDATE" state4 [warnMsg "id"]
      (by decide) (by decide) (by decide) (by decide) (by decide) (by decide)
      (by decide)).2.2.2 "1" (JVal.obj [("id", JVal.num 1), ("name", JVal.str "A2")])
      (by decide)⟩

theorem destroyElems_ok_elems (o : Options) (elems : List JVal) :
    ∀ r en r' en', destroyElems o elems r en = .ok (r', en') →
      ∀ e ∈ elems, ¬(e = JVal.null ∨ e = JVal.undefined) := by
  induction elems with
  | nil => intro r en r' en' h e he; simp at he
  | cons e rest ih =>
    intro r en r' en' h x hx
    rw [destroyElems] at h
    by_cases hc : e = JVal.null ∨ e = JVal.undefined
    · rw [if_pos hc] at h; exact Except.noConfusion h
    · rw [if_neg hc] at h
      rcases List.mem_cons.mp hx with hx | hx
      · subst hx; exact hc
      · exact ih _ _ _ _ h x hx

theorem destroyElems_sublist (o : Options) (elems : List JVal) :
    ∀ r en r' en', destroyElems o elems r en = .ok (r', en') → r'.Sublist r := by
  induction elems with
  | nil =>
    intro r en r' en' h
    rw [destroyElems] at h
    simp only [Except.ok.injEq, Prod.mk.injEq] at h
    rw [← h.1]
  | cons e rest ih =>
    intro r en r' en' h
    rw [destroyElems] at h
    by_cases hc : e = JVal.null ∨ e = JVal.undefined
    · rw [if_pos hc] at h; exact Except.noConfusion h
    · rw [if_neg hc] at h
      exact (ih _ _ _ _ h).trans (List.erase_sublist _ _)

theorem destroyElems_lookup_none (o : Options) (elems : List JVal) :
    ∀ r en r' en' k, destroyElems o elems r en = .ok (r', en') →
      lookupAssoc en k = none → lookupAssoc en' k = none := by
  induction elems with
  | nil =>
    intro r en r' en' k h hk
    rw [destroyElems] at h
    simp only [Except.ok.injEq, Prod.mk.injEq] at h
    rw [← h.2]
    exact hk
  | cons e rest ih =>
    intro r en r' en' k h hk
    rw [destroyElems] at h
    by_cases hc : e = JVal.null ∨ e = JVal.undefined
    · rw [if_pos hc] at h; exact Except.noConfusion h
    · rw [if_neg hc] at h
      refine ih _ _ _ _ _ h ?_
      rw [lookup_delAssoc]
      by_cases hkk : toKey (destroyId o e) = k
      · rw [if_pos hkk]
      · rw [if_neg hkk]; exact hk

theorem destroyElems_removed (o : Options) (elems : List JVal) :
    ∀ r en r' en', r.Nodup → destroyElems o elems r en = .ok (r', en') →
      r'.Nodup ∧ ∀ e ∈ elems, destroyId o e ∉ r' ∧
        lookupAssoc en' (toKey (destroyId o e)) = none := by
  induction elems with
  | nil =>
    intro r en r' en' hnd h
    rw [destroyElems] at h
    simp only [Except.ok.injEq, Prod.mk.injEq] at h
    refine ⟨?_, fun e he => by simp at he⟩
    rw [← h.1]; exact hnd
  | cons e rest ih =>
    intro r en r' en' hnd h
    rw [destroyElems] at h
    by_cases hc : e = JVal.null ∨ e = JVal.undefined
    · rw [if_pos hc] at h; exact Except.noConfusion h
    · rw [if_neg hc] at h
      have hnd' : (r.erase (destroyId o e)).Nodup :=
        (List.erase_sublist _ _).nodup hnd
      obtain ⟨hndr, hrest⟩ := ih _ _ _ _ hnd' h
      refine ⟨hndr, fun x hx => ?_⟩
      rcases List.mem_cons.mp hx with hx | hx
      · subst hx
        constructor
        · intro hmem
          have hsub := destroyElems_sublist o rest _ _ _ _ h
          have : destroyId o x ∈ r.erase (destroyId o x) := hsub.subset hmem
          rw [hnd.mem_erase_iff] at this
          exact this.1 rfl
        · refine destroyElems_lookup_none o rest _ _ _ _ _ h ?_
          rw [lookup_delAssoc, if_pos rfl]
      · exact hrest x hx

theorem destroyElems_noop (o : Options) (elems : List JVal) :
    ∀ r en, (∀ e ∈ elems, ¬(e = JVal.null ∨ e = JVal.undefined)) →
      (∀ e ∈ elems, destroyId o e ∉ r ∧ lookupAssoc en (toKey (destroyId o e)) = none) →
      destroyElems o elems r en = .ok (r, en) := by
  induction elems with
  | nil => intro r en _ _; rfl
  | cons e rest ih =>
    intro r en hnn hprop
    rw [destroyElems, if_neg (hnn e (by simp))]
    have he := hprop e (by simp)
    show destroyElems o rest (r.erase (destroyId o e))
      (delAssoc en (toKey (destroyId o e))) = Except.ok (r, en)
    rw [List.erase_of_not_mem he.1]
    rw [delAssoc_of_not_mem _ _ ((lookupAssoc_eq_none_iff _ _).mp he.2)]
    exact ih r en (fun x hx => hnn x (by simp [hx])) (fun x hx => hprop x (by simp [hx]))

/-- C7 (amended): destroy is idempotent on states whose `results` holds no
duplicate identifier (as every state reachable through the reducer does):
applying the same DESTROY SUCCESS action twice yields the same `results`
and `entities` as applying it once — removing an absent identifier is a
silent no-op, and a present identifier's single occurrence is removed by
the first application. -/
theorem c7_destroy_idempotent (n : String) (o : Options) (s : Resource) (a : Action)
    (s1 s2 : Resource) (w1 w2 : List String)
    (hsplit : jsSplit '/' a.type = [jsToUpper n, "DESTROY", "SUCCESS"])
    (hnd : s.results.Nodup)
    (h1 : resourceReducer n o s a = .ok (s1, w1))
    (h2 : resourceReducer n o s1 a = .ok (s2, w2)) :
    s2.results = s1.results ∧ s2.entities = s1.entities := by
  rw [resourceReducer_op n o s a "DESTROY" "SUCCESS" hsplit (by decide) (by decide) (by decide),
    handleResource_success] at h1
  rw [resourceReducer_op n o s1 a "DESTROY" "SUCCESS" hsplit (by decide) (by decide) (by decide),
    handleResource_success] at h2
  unfold handleSuccess at h1 h2
  by_cases hp : truthy a.payload = false
  · rw [if_pos hp] at h1 h2
    simp only [Except.ok.injEq, Prod.mk.injEq] at h1 h2
    rw [← h2.1]
    exact ⟨rfl, rfl⟩
  · rw [if_neg hp, if_pos rfl] at h1 h2
    obtain ⟨hm1, hst1, hcs1, hwe1, hde1⟩ := destroyInResource_frame _ _ _ _ _ h1
    obtain ⟨hm2, hst2, hcs2, hwe2, hde2⟩ := destroyInResource_frame _ _ _ _ _ h2
    have hsr : (successState "DESTROY" a s).results = s.results := rfl
    have hse : (successState "DESTROY" a s).entities = s.entities := rfl
    rw [hsr, hse] at hde1
    have hsr1 : (successState "DESTROY" a s1).results = s1.results := rfl
    have hse1 : (successState "DESTROY" a s1).entities = s1.entities := rfl
    rw [hsr1, hse1] at hde2
    have hnn := destroyElems_ok_elems o _ _ _ _ _ hde1
    obtain ⟨hnd1, hprops⟩ := destroyElems_removed o _ _ _ _ _ hnd hde1
    have hnoop := destroyElems_noop o _ s1.results s1.entities hnn hprops
    rw [hde2] at hnoop
    simp only [Except.ok.injEq, Prod.mk.injEq] at hnoop
    exact ⟨hnoop.1, hnoop.2⟩

/-- A destroy action used by the C7 theorems. -/
def destroyAct : Action := { type := "USERS/DESTROY/SUCCESS", payload := .num 1 }

/-- A state whose `results` contains a duplicated identifier. -/
def dupState : Resource :=
  { initialResourceState with results := [.num 1, .num 1], entities := [("1", .num 1)] }

/-- C7 counterexample: on a state whose `results` holds the identifier `1`
twice, destroying `1` once leaves `results = [1]` while destroying it
twice leaves `results = []` — the second application is not a no-op, so
destroy is not idempotent on arbitrary states. -/
theorem c7_counterexample :
    (resourceReducer "USERS" defaultOptions dupState destroyAct).map (fun p => p.1.results)
      = .ok [.num 1] ∧
    ((resourceReducer "USERS" defaultOptions dupState destroyAct).bind
      (fun p => resourceReducer "USERS" defaultOptions p.1 destroyAct)).map (fun p => p.1.results)
      = .ok [] := by
  decide

/-- The state produced by destroying identifier `1` in `sampleState`. -/
def state7 : Resource :=
  match resourceReducer "USERS" defaultOptions sampleState destroyAct with
  | .ok p => p.1
  | .error _ => initialResourceState

/-- The state produced by destroying identifier `1` in `state7`. -/
def state7b : Resource :=
  match resourceReducer "USERS" defaultOptions state7 destroyAct with
  | .ok p => p.1
  | .error _ => initialResourceState

theorem c7_destroy_idempotent_witness :
    state7b.results = state7.results ∧ state7b.entities = state7.entities :=
  c7_destroy_idempotent "USERS" defaultOptions sampleState destroyAct state7 state7b [] []
    (by decide) (by decide) (by decide) (by decide)

/-! ### Claim C3: results/entities correspondence on reachable states -/

/-- An update-payload element is well-identified when its identifier (read
through the default `id` attribute) is a string, or falsy (in which case
the element is skipped). -/
def UpdateIdOk (e : JVal) : Prop :=
  (∃ k, getFieldD e "id" = JVal.str k) ∨ truthy (getFieldD e "id") = false

/-- A destroy-payload element is well-identified when its extracted
identifier is a string. -/
def DestroyIdOk (e : JVal) : Prop := ∃ k, destroyId defaultOptions e = JVal.str k

/-- An action whose SUCCESS payload elements carry string identifiers
(the restriction under which identifier values and entity keys coincide). -/
def StrIdAction (a : Action) : Prop :=
  (jsSplit '/' a.type)[2]? = some "SUCCESS" →
  (jsSplit '/' a.type)[1]? ≠ some "RESOURCE" →
  (jsSplit '/' a.type)[1]? ≠ some "META" →
  (jsSplit '/' a.type)[1]? ≠ some "CHANGESET" →
  (if (jsSplit '/' a.type)[1]? = some "DESTROY"
   then ∀ e ∈ toArray a.payload, DestroyIdOk e
   else ∀ e ∈ toArray a.payload, UpdateIdOk e)

/-- The states reachable from the initial state through the reducer (with
default options) by actions whose payload identifiers are strings. -/
inductive ReachableStr (n : String) : Resource → Prop where
  | init : ReachableStr n initialResourceState
  | step {s s' : Resource} {a : Action} {w : List String} :
      ReachableStr n s → StrIdAction a →
      resourceReducer n defaultOptions s a = .ok (s', w) → ReachableStr n s'

theorem updateElems_good (elems : List JVal) :
    ∀ (r : List JVal) (en : List (String × JVal)) (w : List String) r' en' w',
    (∀ e ∈ elems, UpdateIdOk e) →
    (∀ v ∈ r, ∃ k, v = JVal.str k) → r.Nodup → r.map toKey = en.map Prod.fst →
    updateElems defaultOptions elems r en w = .ok (r', en', w') →
    (∀ v ∈ r', ∃ k, v = JVal.str k) ∧ r'.Nodup ∧ r'.map toKey = en'.map Prod.fst := by
  have hattr : defaultOptions.idAttribute = "id" := rfl
  induction elems with
  | nil =>
    intro r en w r' en' w' _ hstr hnd hmap h
    rw [updateElems] at h
    simp only [Except.ok.injEq, Prod.mk.injEq] at h
    obtain ⟨hr, he, _⟩ := h
    rw [← hr, ← he]
    exact ⟨hstr, hnd, hmap⟩
  | cons e rest ih =>
    intro r en w r' en' w' hids hstr hnd hmap h
    have hide := hids e (by simp)
    have hrest : ∀ x ∈ rest, UpdateIdOk x := fun x hx => hids x (by simp [hx])
    rw [updateElems] at h
    by_cases hc : e = JVal.null ∨ e = JVal.undefined
    · rw [if_pos hc] at h; exact Except.noConfusion h
    · rw [if_neg hc] at h
      simp only [hattr] at h
      by_cases hid : truthy (getFieldD e "id") = true
      · rw [if_pos hid] at h
        obtain ⟨k, hk⟩ : ∃ k, getFieldD e "id" = JVal.str k := by
          rcases hide with hide | hide
          · exact hide
          · rw [hide] at hid; cases hid
        rw [hk] at h
        have htk : toKey (JVal.str k) = k := rfl
        rw [htk] at h
        by_cases hmem : JVal.str k ∈ r
        · rw [if_pos hmem] at h
          have hkmem : k ∈ en.map Prod.fst := by
            rw [← hmap]
            have := List.mem_map_of_mem toKey hmem
            simpa using this
          refine ih _ _ _ _ _ _ hrest hstr hnd ?_ h
          rw [map_fst_setAssoc_mem en k _ hkmem]
          exact hmap
        · rw [if_neg hmem] at h
          have hknot : k ∉ en.map Prod.fst := by
            rw [← hmap]
            intro hkm
            obtain ⟨v', hv', htv⟩ := List.mem_map.mp hkm
            obtain ⟨k', hk'⟩ := hstr v' hv'
            rw [hk'] at htv
            have : k' = k := htv
            rw [hk', this] at hv'
            exact hmem hv'
          refine ih _ _ _ _ _ _ hrest ?_ ?_ ?_ h
          · intro v hv
            rcases List.mem_append.mp hv with hv | hv
            · exact hstr v hv
            · rcases List.mem_singleton.mp hv with rfl
              exact ⟨k, rfl⟩
          · simp only [List.nodup_append, List.nodup_cons, List.nodup_nil]
            refine ⟨hnd, ⟨by simp, trivial⟩, ?_⟩
            intro x hx hxs
            rcases List.mem_singleton.mp hxs with rfl
            exact hmem hx
          · rw [List.map_append, map_fst_setAssoc_not_mem en k _ hknot, hmap]
            rfl
      · rw [if_neg hid] at h
        exact ih _ _ _ _ _ _ hrest hstr hnd hmap h

theorem erase_del_aligned : ∀ (r : List JVal) (en : List (String × JVal)) (k : String),
    (∀ v ∈ r, ∃ t, v = JVal.str t) → r.Nodup →
    r.map toKey = en.map Prod.fst →
    (r.erase (JVal.str k)).map toKey = (delAssoc en k).map Prod.fst := by
  intro r
  induction r with
  | nil =>
    intro en k _ _ hmap
    have hen : en = [] := by
      cases en with
      | nil => rfl
      | cons p t => simp at hmap
    rw [hen]
    rfl
  | cons v r ihr =>
    intro en k hstr hnd hmap
    cases en with
    | nil => simp at hmap
    | cons p en' =>
      simp only [List.map_cons, List.cons.injEq] at hmap
      obtain ⟨hhead, htail⟩ := hmap
      obtain ⟨t, rfl⟩ := hstr v (List.mem_cons_self v r)
      have hh : t = p.1 := hhead
      have hndr : r.Nodup := (List.nodup_cons.mp hnd).2
      have hvnot : JVal.str t ∉ r := (List.nodup_cons.mp hnd).1
      by_cases htk : t = k
      · subst htk
        rw [List.erase_cons_head]
        have hpk : p.1 = t := hh.symm
        have hdel : delAssoc (p :: en') t = delAssoc en' t := by
          rw [delAssoc, List.filter_cons, if_neg (by simp [hpk])]
          rfl
        rw [hdel]
        have hknot : t ∉ en'.map Prod.fst := by
          rw [← htail]
          intro hkm
          obtain ⟨v', hv', htv⟩ := List.mem_map.mp hkm
          obtain ⟨k', rfl⟩ := hstr v' (List.mem_cons_of_mem _ hv')
          have hk't : k' = t := htv
          subst hk't
          exact hvnot hv'
        rw [delAssoc_of_not_mem _ _ hknot]
        exact htail
      · rw [List.erase_cons_tail (by simp [htk])]
        have hpk2 : p.1 ≠ k := by rw [← hh]; exact htk
        have hdel : delAssoc (p :: en') k = p :: delAssoc en' k := by
          rw [delAssoc, List.filter_cons, if_pos (by simp [hpk2])]
          rfl
        rw [hdel]
        simp only [List.map_cons, List.cons.injEq]
        refine ⟨hh, ?_⟩
        exact ihr en' k (fun x hx => hstr x (List.mem_cons_of_mem _ hx)) hndr htail

theorem destroyElems_good (elems : List JVal) :
    ∀ (r : List JVal) (en : List (String × JVal)) r' en',
    (∀ e ∈ elems, DestroyIdOk e) →
    (∀ v ∈ r, ∃ k, v = JVal.str k) → r.Nodup → r.map toKey = en.map Prod.fst →
    destroyElems defaultOptions elems r en = .ok (r', en') →
    (∀ v ∈ r', ∃ k, v = JVal.str k) ∧ r'.Nodup ∧ r'.map toKey = en'.map Prod.fst := by
  induction elems with
  | nil =>
    intro r en r' en' _ hstr hnd hmap h
    rw [destroyElems] at h
    simp only [Except.ok.injEq, Prod.mk.injEq] at h
    rw [← h.1, ← h.2]
    exact ⟨hstr, hnd, hmap⟩
  | cons e rest ih =>
    intro r en r' en' hids hstr hnd hmap h
    have hide := hids e (by simp)
    have hrest : ∀ x ∈ rest, DestroyIdOk x := fun x hx => hids x (by simp [hx])
    rw [destroyElems] at h
    by_cases hc : e = JVal.null ∨ e = JVal.undefined
    · rw [if_pos hc] at h; exact Except.noConfusion h
    · rw [if_neg hc] at h
      obtain ⟨k, hk⟩ := hide
      have h' : destroyElems defaultOptions rest (r.erase (destroyId defaultOptions e))
          (delAssoc en (toKey (destroyId defaultOptions e))) = .ok (r', en') := h
      rw [hk] at h'
      have htk : toKey (JVal.str k) = k := rfl
      rw [htk] at h'
      refine ih _ _ _ _ hrest ?_ ?_ ?_ h'
      · intro v hv
        exact hstr v ((List.erase_sublist _ _).subset hv)
      · exact (List.erase_sublist _ _).nodup hnd
      · exact erase_del_aligned r en k hstr hnd hmap

theorem removeFields_frame (fields : List JVal) (fkey : String) (s : Resource)
    (s' : Resource) (w : List String) (h : removeFields fields fkey s = .ok (s', w)) :
    s'.results = s.results ∧ s'.entities = s.entities := by
  cases fields with
  | nil =>
    rw [removeFields] at h
    simp only [Except.ok.injEq, Prod.mk.injEq] at h
    rw [← h.1]
    exact ⟨rfl, rfl⟩
  | cons f fs =>
    rw [removeFields] at h
    cases hlk : lookupAssoc s.changeset fkey with
    | none =>
      rw [hlk] at h
      simp only [removeFieldsNE] at h
      exact Except.noConfusion h
    | some buf =>
      rw [hlk] at h
      simp only [removeFieldsNE] at h
      by_cases hb : buf = JVal.null ∨ buf = JVal.undefined
      · rw [if_pos hb] at h; exact Except.noConfusion h
      · rw [if_neg hb] at h
        simp only [Except.ok.injEq, Prod.mk.injEq] at h
        rw [← h.1]
        exact ⟨rfl, rfl⟩

theorem handleChangeset_frame (m : Option String) (a : Action) (s : Resource) (o : Options)
    (s' : Resource) (w : List String) (h : handleChangeset m a s o = .ok (s', w)) :
    s'.results = s.results ∧ s'.entities = s.entities := by
  unfold handleChangeset at h
  by_cases hm : (if a.meta = JVal.undefined then JVal.obj [] else a.meta) = JVal.null
  · rw [if_pos hm] at h; exact Except.noConfusion h
  · rw [if_neg hm] at h
    cases m with
    | none =>
      simp only [changesetSwitch] at h
      simp only [Except.ok.injEq, Prod.mk.injEq] at h
      rw [← h.1]
      exact ⟨rfl, rfl⟩
    | some mm =>
      simp only [changesetSwitch] at h
      by_cases h1 : mm = "MERGE"
      · rw [if_pos h1] at h
        simp only [Except.ok.injEq, Prod.mk.injEq] at h
        rw [← h.1]
        exact ⟨rfl, rfl⟩
      · rw [if_neg h1] at h
        by_cases h2 : mm = "REMOVE"
        · rw [if_pos h2] at h
          exact removeFields_frame _ _ _ _ _ h
        · rw [if_neg h2] at h
          by_cases h3 : mm = "RESET"
          · rw [if_pos h3] at h
            simp only [Except.ok.injEq, Prod.mk.injEq] at h
            rw [← h.1]
            exact ⟨rfl, rfl⟩
          · rw [if_neg h3] at h
            simp only [Except.ok.injEq, Prod.mk.injEq] at h
            rw [← h.1]
            exact ⟨rfl, rfl⟩

/-- The C3 invariant: every `results` entry is a string identifier, with
no duplicates, and the identifier list coerced to keys is exactly the
`entities` key list. -/
def GoodState (s : Resource) : Prop :=
  (∀ v ∈ s.results, ∃ k, v = JVal.str k) ∧ s.results.Nodup ∧
  s.results.map toKey = s.entities.map Prod.fst

theorem reducer_preserves_good (n : String) (s s' : Resource) (a : Action) (w : List String)
    (hg : GoodState s) (hstr : StrIdAction a)
    (hok : resourceReducer n defaultOptions s a = .ok (s', w)) : GoodState s' := by
  by_cases hname : jsToUpper n = (jsSplit '/' a.type).headD ""
  case neg =>
    rw [resourceReducer_mismatch n _ s a (fun hh => hname hh.symm)] at hok
    simp only [Except.ok.injEq, Prod.mk.injEq] at hok
    rw [← hok.1]
    exact hg
  case pos =>
    simp only [resourceReducer] at hok
    rw [if_pos hname] at hok
    by_cases h1 : (jsSplit '/' a.type)[1]? = some "RESOURCE"
    · rw [if_pos h1] at hok
      simp only [Except.ok.injEq, Prod.mk.injEq] at hok
      rw [← hok.1]
      exact ⟨fun v hv => absurd hv (List.not_mem_nil v), List.nodup_nil, rfl⟩
    · rw [if_neg h1] at hok
      by_cases h2 : (jsSplit '/' a.type)[1]? = some "META"
      · rw [if_pos h2] at hok
        simp only [Except.ok.injEq, Prod.mk.injEq] at hok
        rw [← hok.1]
        exact hg
      · rw [if_neg h2] at hok
        by_cases h3 : (jsSplit '/' a.type)[1]? = some "CHANGESET"
        · rw [if_pos h3] at hok
          obtain ⟨hr, he⟩ := handleChangeset_frame _ _ _ _ _ _ hok
          exact ⟨fun v hv => hg.1 v (hr ▸ hv), hr ▸ hg.2.1, by rw [hr, he]; exact hg.2.2⟩
        · rw [if_neg h3] at hok
          cases hm2 : (jsSplit '/' a.type)[2]? with
          | none =>
            rw [hm2] at hok
            cases hd : (jsSplit '/' a.type)[1]? with
            | none =>
              rw [hd] at hok
              simp only [handleResource, Except.ok.injEq, Prod.mk.injEq] at hok
              rw [← hok.1]
              exact hg
            | some d =>
              rw [hd] at hok
              simp only [handleResource, Except.ok.injEq, Prod.mk.injEq] at hok
              rw [← hok.1]
              exact hg
          | some m =>
            obtain ⟨d, hd⟩ := getElem1_of_getElem2 _ _ hm2
            rw [hd, hm2] at hok
            by_cases hmS : m = "SUCCESS"
            · subst hmS
              rw [handleResource_success] at hok
              have hids := hstr hm2 h1 h2 h3
              unfold handleSuccess at hok
              by_cases hp : truthy a.payload = false
              · rw [if_pos hp] at hok
                simp only [Except.ok.injEq, Prod.mk.injEq] at hok
                rw [← hok.1]
                exact hg
              · rw [if_neg hp] at hok
                have hdata : defaultOptions.entityReducer d a.payload a.meta = a.payload := rfl
                rw [hdata] at hok
                have hsr : (successState d a s).results = s.results := rfl
                have hse : (successState d a s).entities = s.entities := rfl
                by_cases hdd : d = "DESTROY"
                · rw [if_pos hdd] at hok
                  obtain ⟨_, _, _, _, hde⟩ := destroyInResource_frame _ _ _ _ _ hok
                  rw [hsr, hse] at hde
                  rw [hd, hdd] at hids
                  rw [if_pos rfl] at hids
                  exact destroyElems_good _ _ _ _ _ hids hg.1 hg.2.1 hg.2.2 hde
                · rw [if_neg hdd] at hok
                  obtain ⟨_, _, _, hue⟩ := updateInResource_frame _ _ _ _ _ hok
                  rw [hsr, hse] at hue
                  rw [hd] at hids
                  rw [if_neg (by simpa using hdd)] at hids
                  exact updateElems_good _ _ _ _ _ _ _ hids hg.1 hg.2.1 hg.2.2 hue
            · have hfr : s'.results = s.results ∧ s'.entities = s.entities := by
                by_cases hm1 : m = "START"
                · subst hm1
                  rw [handleResource_start] at hok
                  simp only [Except.ok.injEq, Prod.mk.injEq] at hok
                  rw [← hok.1]
                  exact ⟨rfl, rfl⟩
                · by_cases hm3 : m = "FAILURE"
                  · subst hm3
                    rw [handleResource_failure] at hok
                    simp only [Except.ok.injEq, Prod.mk.injEq] at hok
                    rw [← hok.1]
                    exact ⟨rfl, rfl⟩
                  · by_cases hm4 : m = "RESET"
                    · subst hm4
                      rw [handleResource_reset] at hok
                      simp only [Except.ok.injEq, Prod.mk.injEq] at hok
                      rw [← hok.1]
                      exact ⟨rfl, rfl⟩
                    · rw [handleResource_other d m a s defaultOptions hm1 hmS hm3 hm4] at hok
                      simp only [Except.ok.injEq, Prod.mk.injEq] at hok
                      rw [← hok.1]
                      exact ⟨rfl, rfl⟩
              obtain ⟨hr, he⟩ := hfr
              exact ⟨fun v hv => hg.1 v (hr ▸ hv), hr ▸ hg.2.1, by rw [hr, he]; exact hg.2.2⟩

/-- C3 (amended): on every state reachable from the initial state through
actions whose SUCCESS payload identifiers are strings (so that identifier
values coincide with entity keys — with mixed-type identifiers the
coercion of identifiers to strings breaks the correspondence, see the
counterexample), `results` holds string identifiers with no duplicates and
its key coercion is exactly the `entities` key list: the two containers
stay in 1:1 correspondence after every transition, an entity with a falsy
identifier is never inserted, and destroy removes an identifier from both
containers. -/
theorem c3_results_entities_correspondence (n : String) (s : Resource)
    (h : ReachableStr n s) :
    (∀ v ∈ s.results, ∃ k, v = JVal.str k) ∧ s.results.Nodup ∧
    s.results.map toKey = s.entities.map Prod.fst := by
  induction h with
  | init => exact ⟨fun v hv => absurd hv (List.not_mem_nil v), List.nodup_nil, rfl⟩
  | step hr hstr hok ih => exact reducer_preserves_good _ _ _ _ _ ih hstr hok

/-- The first action of the C3 counterexample: a fetch delivering two
entities whose identifiers are the number `1` and the string `"1"`. -/
def mixedAct1 : Action :=
  { type := "USERS/FETCH/SUCCESS",
    payload := .arr [.obj [("id", .num 1)], .obj [("id", .str "1")]] }

/-- The second action of the C3 counterexample: destroying identifier `1`. -/
def mixedAct2 : Action := { type := "USERS/DESTROY/SUCCESS", payload := .num 1 }

/-- C3 counterexample: from the initial state (default identifier field),
fetching entities with identifiers `1` (number) and `"1"` (string) and
then destroying `1` yields `results = ["1"]` but `entities = ∅` — an
identifier in `results` with no matching entity key, refuting the claimed
1:1 correspondence on reachable states. -/
theorem c3_counterexample :
    ((resourceReducer "USERS" defaultOptions initialResourceState mixedAct1).bind
      (fun p => resourceReducer "USERS" defaultOptions p.1 mixedAct2)).map
      (fun p => (p.1.results, p.1.entities)) = .ok ([JVal.str "1"], []) := by
  decide

/-- A string-identified fetch action for the C3 witness. -/
def actC3 : Action :=
  { type := "USERS/FETCH/SUCCESS", payload := .arr [.obj [("id", .str "a")]] }

theorem actC3_strid : StrIdAction actC3 := by
  intro hsucc hh1 hh2 hh3
  rw [if_neg (by decide)]
  intro e he
  have : e = JVal.obj [("id", JVal.str "a")] := by
    simpa [actC3, toArray] using he
  rw [this]
  exact Or.inl ⟨"a", rfl⟩

/-- The state reached by applying `actC3` to the initial state. -/
def stateC3 : Resource :=
  match resourceReducer "USERS" defaultOptions initialResourceState actC3 with
  | .ok p => p.1
  | .error _ => initialResourceState

theorem c3_results_entities_correspondence_witness :
    (∀ v ∈ stateC3.results, ∃ k, v = JVal.str k) ∧ stateC3.results.Nodup ∧
    stateC3.results.map toKey = stateC3.entities.map Prod.fst :=
  c3_results_entities_correspondence "USERS" stateC3
    (ReachableStr.step ReachableStr.init actC3_strid
      (show resourceReducer "USERS" defaultOptions initialResourceState actC3
        = .ok (stateC3, []) by decide))

end RAR
